import Mathlib

/-!
Shallow embedding of `src/project.ts` (custom-project-status): the `Project`
class with its URL parsing (`parseURL`), field indexing (`initFields`),
status resolution (`getStatusField`) and the ensure-membership-and-set-status
operation (`addToProject`), together with its initialization (`init`) and
construction.  Remote GraphQL helpers (`getProjectItem`, `addProjectItem`,
`updateIssueStatus`) are external collaborators and are modelled as an
abstract state-passing interface `RemoteOps`.
-/

namespace ProjectStatus

/-- The distinct failure kinds of the core; each constructor corresponds to one
distinct `throw new Error(...)` site in `src/project.ts`. -/
inductive PrjError where
  | invalidURL (url : String)
  | boardNotFound
  | notInitialized
  | addFailed
  | addReturnedNoID
  | membershipNotFoundAfterAdd
  | membershipIDMismatch
  | missingStatusField
  | statusValueNotFound (wanted : String)
  | statusUpdateFailed
  deriving Repr, DecidableEq

/-- `ProjectDesc` from `project.ts`: result of parsing the project URL. -/
structure ProjectDesc where
  owner : String
  projectNumber : Nat
  isOrg : Bool
  deriving Repr, DecidableEq

/-- `DefaultStatus` from `project.ts`. -/
structure DefaultStatus where
  issues : String
  prs : String
  deriving Repr, DecidableEq

/-- An option of a single-select field: `{id, name}`. -/
structure OptionEntry where
  id : String
  name : String
  deriving Repr, DecidableEq

/-- Modelled from the spec: `ProjectFieldEntry` is declared in `gql-types.ts`,
which is not among the sources; per the spec's FieldDescriptor, an entry
optionally carries an id (entries with no id are discarded during indexing),
a name, and an ordered options list. -/
structure ProjectFieldEntry where
  id : Option String
  name : String
  options : List OptionEntry
  deriving Repr, DecidableEq

/- ----------------------------------------------------------------
   parseURL: the regex
     /\/(?<type>orgs|users)\/(?<owner>[^/]+)\/projects\/(?<prjNumber>\d+)/
   matched against the url (leftmost match), then
     owner := groups.owner, projectNumber := parseInt(groups.prjNumber),
     isOrg := groups.type === "orgs".
   ---------------------------------------------------------------- -/

/-- The three named capture groups of a successful regex match. -/
structure RawMatch where
  seg : List Char
  owner : List Char
  digits : List Char
  deriving Repr, DecidableEq

/-- If `pat` is a literal prefix of `l`, return the remainder. -/
def stripLit : List Char → List Char → Option (List Char)
  | [], l => some l
  | _ :: _, [] => none
  | a :: as, b :: bs => if a = b then stripLit as bs else none

/-- Attempt the whole regex at the current position: `"/SEG/"` already
consumed, parse `[^/]+` (greedy), then the literal `"/projects/"`, then
`\d+` (greedy). -/
def matchTail (seg : List Char) (rest : List Char) : Option RawMatch :=
  let own := rest.takeWhile (fun c => c ≠ '/')
  let rest2 := rest.dropWhile (fun c => c ≠ '/')
  if own.isEmpty then none
  else
    match stripLit "/projects/".toList rest2 with
    | none => none
    | some rest3 =>
      let ds := rest3.takeWhile Char.isDigit
      if ds.isEmpty then none else some ⟨seg, own, ds⟩

/-- Attempt the regex anchored at the head of `l`: the alternation
`(orgs|users)` tries each literal (they cannot both apply: distinct first
letters). -/
def matchAt (l : List Char) : Option RawMatch :=
  match stripLit "/orgs/".toList l with
  | some rest => matchTail "orgs".toList rest
  | none =>
    match stripLit "/users/".toList l with
    | some rest => matchTail "users".toList rest
    | none => none

/-- JS `String.match` semantics for an unanchored regex: the leftmost
position at which the pattern matches. -/
def findMatch : List Char → Option RawMatch
  | [] => none
  | c :: cs =>
    match matchAt (c :: cs) with
    | some m => some m
    | none => findMatch cs

/-- `parseInt` applied to the (nonempty, all-digit) `prjNumber` group. -/
def digitsToNat (ds : List Char) : Nat :=
  ds.foldl (fun n c => n * 10 + (c.toNat - '0'.toNat)) 0

/-- `parseURL` from `project.ts`: throws `Invalid project URL: ${url}` when
the regex matches nowhere, otherwise builds the `ProjectDesc` from the
capture groups. -/
def parseURL (url : String) : Except PrjError ProjectDesc :=
  match findMatch url.toList with
  | none => .error (PrjError.invalidURL url)
  | some m =>
    .ok { owner := String.mk m.owner
          projectNumber := digitsToNat m.digits
          isOrg := m.seg == "orgs".toList }

/- ----------------------------------------------------------------
   The `Project` class.  Its mutable members `projectID` (initially
   `undefined`) and `fields` (initially `{}`) become a `ProjectState`
   threaded through the methods; the JS object `{ [id: string]:
   ProjectFieldEntry }` becomes a functional map keyed by field name.
   ---------------------------------------------------------------- -/

/-- The field map: JS object keyed by field name. -/
def FieldMap := String → Option ProjectFieldEntry

/-- `{}`, the empty JS object. -/
def emptyFields : FieldMap := fun _ => none

/-- The members of the `Project` class (minus the external `octokit`). -/
structure ProjectState where
  desc : ProjectDesc
  projectID : Option String
  fields : FieldMap
  defaultStatus : DefaultStatus

/-- The constructor: parses the URL (which throws on an invalid one) and
starts with no project id and an empty field map.  The token only feeds the
external octokit client and carries no logic. -/
def mkProject (token : String) (url : String) (defaultStatus : DefaultStatus) :
    Except PrjError ProjectState :=
  match parseURL url with
  | .error e => .error e
  | .ok desc =>
    let _ := token
    .ok { desc := desc, projectID := none, fields := emptyFields,
          defaultStatus := defaultStatus }

/-- One iteration of the `initFields` loop: skip an entry whose
`id === undefined`, otherwise `this.fields[entry.name] = entry`. -/
def stepField (acc : FieldMap) (entry : ProjectFieldEntry) : FieldMap :=
  match entry.id with
  | none => acc
  | some _ => fun k => if k = entry.name then some entry else acc k

/-- `Project.initFields`: fold the schema entries into the field map. -/
def initFields (fields : List ProjectFieldEntry) (m : FieldMap) : FieldMap :=
  fields.foldl stepField m

/-- What `Project.getStatusField` returns on success:
`{fieldID, value: {id, value}}`. -/
structure StatusValue where
  fieldID : Option String
  valueID : String
  valueName : String
  deriving Repr, DecidableEq

/-- `toLowerCase` on a string, modelled character-wise (ASCII case folding,
which covers the label alphabets this system handles). -/
def lowerStr (s : String) : String := String.mk (s.data.map Char.toLower)

/-- `needle` is a literal leading segment of `hay`. -/
def leadsList : List Char → List Char → Bool
  | [], _ => true
  | _ :: _, [] => false
  | a :: as, b :: bs => a = b && leadsList as bs

/-- `needle` occurs contiguously somewhere in `hay`. -/
def infixList (needle : List Char) : List Char → Bool
  | [] => needle.isEmpty
  | b :: bs => leadsList needle (b :: bs) || infixList needle bs

/-- JS `String.includes`: `needle` occurs contiguously in `hay`. -/
def strIncludes (hay needle : String) : Bool :=
  infixList needle.data hay.data

/-- The predicate of the `options.find(...)` call in `getStatusField`:
`entry.name.toLowerCase().includes(wanted.toLowerCase())`. -/
def optMatches (wanted : String) (o : OptionEntry) : Bool :=
  strIncludes (lowerStr o.name) (lowerStr wanted)

/-- `Project.getStatusField`: throws when no field named `"Status"` is in the
map; otherwise `find`s the first option whose lowercased name includes the
lowercased `wanted`, returning `undefined` (here `none`) when no option
matches. -/
def getStatusField (fields : FieldMap) (wanted : String) :
    Except PrjError (Option StatusValue) :=
  match fields "Status" with
  | none => .error PrjError.missingStatusField
  | some statusField =>
    match statusField.options.find? (optMatches wanted) with
    | none => .ok none
    | some fieldValue =>
      .ok (some { fieldID := statusField.id, valueID := fieldValue.id,
                  valueName := fieldValue.name })

/- ----------------------------------------------------------------
   The remote helpers (`helpers.ts`, an external collaborator): an
   abstract state-passing interface.  `getProjectItem` returns the
   board item or `undefined`; `addProjectItem` may throw (`.error`)
   or return `undefined`; `updateIssueStatus` may throw.
   ---------------------------------------------------------------- -/

/-- A board membership record as `addToProject` consumes it. -/
structure BoardItem where
  prjItemID : String
  deriving Repr, DecidableEq

/-- The three remote mutation/lookup primitives over an abstract remote
state `σ`. -/
structure RemoteOps (σ : Type) where
  getProjectItem : σ → String → String → Option BoardItem × σ
  addProjectItem : σ → String → String → Except Unit (Option String) × σ
  updateIssueStatus : σ → String → String → Option String → String →
    Except Unit Unit × σ

/-- The tail of `addToProject` shared by the already-member and the
just-added branches: resolve the wanted status, fail with
`statusValueNotFound` when the resolver reports none, then issue the
`updateIssueStatus` mutation and return the board-item id. -/
def finishStatus (ops : RemoteOps σ) (ps : ProjectState) (pid : String)
    (isPullRequest : Bool) (item : BoardItem) (s : σ) :
    Except PrjError String × ProjectState × σ :=
  let wantedStatus := if isPullRequest then ps.defaultStatus.prs
                      else ps.defaultStatus.issues
  match getStatusField ps.fields wantedStatus with
  | .error e => (.error e, ps, s)
  | .ok none => (.error (PrjError.statusValueNotFound wantedStatus), ps, s)
  | .ok (some newStatus) =>
    match ops.updateIssueStatus s pid item.prjItemID newStatus.fieldID
        newStatus.valueID with
    | (.error _, s') => (.error PrjError.statusUpdateFailed, ps, s')
    | (.ok _, s') => (.ok item.prjItemID, ps, s')

/-- `Project.addToProject(itemID, isPullRequest)`: fail `notInitialized`
when `projectID` is unset; look the item up; when absent, add it, reject an
`undefined` returned id, re-query the membership and reject an absent or
mismatching record; finally resolve and apply the status. -/
def addToProject (ops : RemoteOps σ) (ps : ProjectState) (itemID : String)
    (isPullRequest : Bool) (s : σ) :
    Except PrjError String × ProjectState × σ :=
  match ps.projectID with
  | none => (.error PrjError.notInitialized, ps, s)
  | some pid =>
    match ops.getProjectItem s itemID pid with
    | (none, s1) =>
      match ops.addProjectItem s1 itemID pid with
      | (.error _, s2) => (.error PrjError.addFailed, ps, s2)
      | (.ok prjItemIDOpt, s2) =>
        match prjItemIDOpt with
        | none => (.error PrjError.addReturnedNoID, ps, s2)
        | some prjItemID =>
          match ops.getProjectItem s2 itemID pid with
          | (none, s3) => (.error PrjError.membershipNotFoundAfterAdd, ps, s3)
          | (some item, s3) =>
            if item.prjItemID ≠ prjItemID then
              (.error PrjError.membershipIDMismatch, ps, s3)
            else
              finishStatus ops ps pid isPullRequest item s3
    | (some item, s1) => finishStatus ops ps pid isPullRequest item s1

/- ----------------------------------------------------------------
   `Project.init`: the schema fetch and its decoding.
   ---------------------------------------------------------------- -/

/-- The `projectV2fields` fragment: id, title and the field nodes. -/
structure ProjectV2 where
  id : String
  title : String
  fields : List ProjectFieldEntry

/-- One owner branch of the query response, holding the project. -/
structure ProjectV2Holder where
  projectV2 : ProjectV2

/-- `ProjectQueryResponse`: either owner branch may be absent (`@include` /
`@skip` directives select exactly one at the server). -/
structure ProjectQueryResponse where
  organization : Option ProjectV2Holder
  user : Option ProjectV2Holder

/-- What `init` returns on success. -/
structure InitResult where
  id : String
  title : String
  deriving Repr, DecidableEq

/-- `Project.init`: issue the schema query (modelled as a total response
function `fetch` of the descriptor), fail when the expected owner branch is
missing, then store the project id and build the field map. -/
def init (fetch : ProjectDesc → ProjectQueryResponse) (ps : ProjectState) :
    Except PrjError (InitResult × ProjectState) :=
  let projectRes := fetch ps.desc
  let branch := if ps.desc.isOrg then projectRes.organization
                else projectRes.user
  match branch with
  | none => .error PrjError.boardNotFound
  | some holder =>
    let prjv2 := holder.projectV2
    .ok ({ id := prjv2.id, title := prjv2.title },
         { ps with projectID := some prjv2.id,
                   fields := initFields prjv2.fields ps.fields })

/- ----------------------------------------------------------------
   Instrumentation: wrap any remote so that every issued call is
   counted.  `addToProject` itself is unchanged; mutation-freedom
   claims are read off the counters.
   ---------------------------------------------------------------- -/

/-- Counters of remote calls issued. -/
structure Counters where
  gets : Nat
  adds : Nat
  updates : Nat
  deriving Repr, DecidableEq

/-- Wrap a remote so each primitive bumps its counter. -/
def countOps (ops : RemoteOps σ) : RemoteOps (σ × Counters) where
  getProjectItem := fun sc itemID pid =>
    let r := ops.getProjectItem sc.1 itemID pid
    (r.1, (r.2, { sc.2 with gets := sc.2.gets + 1 }))
  addProjectItem := fun sc itemID pid =>
    let r := ops.addProjectItem sc.1 itemID pid
    (r.1, (r.2, { sc.2 with adds := sc.2.adds + 1 }))
  updateIssueStatus := fun sc pid prjItemID fieldID optionID =>
    let r := ops.updateIssueStatus sc.1 pid prjItemID fieldID optionID
    (r.1, (r.2, { sc.2 with updates := sc.2.updates + 1 }))

/- ----------------------------------------------------------------
   A remote obeying the collaborator contracts, for the scenarios
   that need a concrete board.
   ---------------------------------------------------------------- -/

/-- Association-list lookup for the membership table. -/
def lookupMem (l : List ((String × String) × String)) (k : String × String) :
    Option String :=
  match l with
  | [] => none
  | (k', v) :: t => if k' = k then some v else lookupMem t k

/-- State of the contract-abiding remote: the membership table (item id and
board id to board-item id), a supply for fresh board-item ids, and counters
of the mutations performed. -/
structure MockState where
  members : List ((String × String) × String)
  nextID : Nat
  adds : Nat
  updates : Nat
  deriving Repr, DecidableEq

/-- Modelled from the spec: the remote helpers live in `helpers.ts`, which is
not among the sources; this instance follows the collaborator contracts of
the spec's external-interface section — `lookupMembership` returns the
membership record or absent, `addToBoard` creates a fresh membership and
returns its id (subsequent lookups see it, absent intervening external
changes), `setFieldValue` succeeds. -/
def mockOps : RemoteOps MockState where
  getProjectItem := fun s itemID pid =>
    (match lookupMem s.members (itemID, pid) with
     | some v => some ⟨v⟩
     | none => none, s)
  addProjectItem := fun s itemID pid =>
    let newID := "PRJITEM" ++ toString s.nextID
    (.ok (some newID),
     { s with members := ((itemID, pid), newID) :: s.members,
              nextID := s.nextID + 1, adds := s.adds + 1 })
  updateIssueStatus := fun s _pid _prjItemID _fieldID _optionID =>
    (.ok (), { s with updates := s.updates + 1 })

/- ----------------------------------------------------------------
   Declarative side of the URL claim: the spec's pattern
   `.../(orgs|users)/<owner>/projects/<number>`, stated as a plain
   decomposition of the character list, to be compared with the
   regex engine above.
   ---------------------------------------------------------------- -/

/-- The spec's URL pattern, declaratively: somewhere in the string there is
`/(orgs|users)/<owner>/projects/<digits>`, with a nonempty slash-free owner
and a nonempty digit run. -/
def HasPattern (l : List Char) : Prop :=
  ∃ pre seg own ds post : List Char,
    l = pre ++ '/' :: (seg ++ '/' :: (own ++ ("/projects/".toList ++ (ds ++ post)))) ∧
    (seg = "orgs".toList ∨ seg = "users".toList) ∧
    own ≠ [] ∧ (∀ c ∈ own, c ≠ '/') ∧
    ds ≠ [] ∧ (∀ c ∈ ds, c.isDigit = true)

/-- Following the spec's words (Status Resolver): a resolution outcome `r`
for a desired label on the Status field `entry` is correct when a found
value is the first option, in the options' declared order, whose lowercased
name contains the lowercased label as a contiguous substring, and a
not-found outcome means no option's name contains it. -/
def SpecStatusResolution (entry : ProjectFieldEntry) (wanted : String)
    (r : Option StatusValue) : Prop :=
  (∀ v, r = some v →
      v.fieldID = entry.id ∧
      ∃ i : Fin entry.options.length,
        v.valueID = (entry.options.get i).id ∧
        v.valueName = (entry.options.get i).name ∧
        (lowerStr wanted).data <:+: (lowerStr (entry.options.get i).name).data ∧
        ∀ j : Fin entry.options.length, j.1 < i.1 →
          ¬ (lowerStr wanted).data <:+: (lowerStr (entry.options.get j).name).data) ∧
  (r = none → ∀ o ∈ entry.options, ¬ (lowerStr wanted).data <:+: (lowerStr o.name).data)

/- ----------------------------------------------------------------
   Concrete fixtures used by witnesses and counterexamples.
   ---------------------------------------------------------------- -/

/-- A well-formed Status field: id `F1` with three decorated options. -/
def exEntry : ProjectFieldEntry :=
  { id := some "F1", name := "Status",
    options := [⟨"o1", "Todo"⟩, ⟨"o2", "In Progress"⟩, ⟨"o3", "✅ Done"⟩] }

/-- The field map holding only `exEntry`. -/
def exFields : FieldMap := initFields [exEntry] emptyFields

/-- Default labels used by the fixtures. -/
def ds0 : DefaultStatus := ⟨"Todo", "In Progress"⟩

/-- A post-init state over a board with the `exEntry` Status field. -/
def psReady : ProjectState :=
  { desc := ⟨"acme", 7, true⟩, projectID := some "PID",
    fields := exFields, defaultStatus := ds0 }

/-- A state before `init`: no project id yet. -/
def psUninit : ProjectState :=
  { desc := ⟨"acme", 7, true⟩, projectID := none,
    fields := emptyFields, defaultStatus := ds0 }

/-- A post-init state over a board with no Status field at all. -/
def psNoStatus : ProjectState :=
  { desc := ⟨"acme", 7, true⟩, projectID := some "PID",
    fields := emptyFields, defaultStatus := ds0 }

/-- An empty board. -/
def mock0 : MockState := ⟨[], 0, 0, 0⟩

/-- Zeroed call counters. -/
def zeroCounters : Counters := ⟨0, 0, 0⟩

/-- A remote whose membership re-lookup after an add returns `"B"` while the
add mutation itself returned `"A"`: the state is the number of calls made so
far, and the first lookup reports absent. -/
def mismatchOps : RemoteOps Nat where
  getProjectItem := fun s _ _ => (if s = 0 then none else some ⟨"B"⟩, s + 1)
  addProjectItem := fun s _ _ => (.ok (some "A"), s + 1)
  updateIssueStatus := fun s _ _ _ _ => (.ok (), s + 1)

/-- A remote schema fetch with both owner branches absent. -/
def fetchNone : ProjectDesc → ProjectQueryResponse := fun _ => ⟨none, none⟩

/- ================================================================
   Theorems.
   ================================================================ -/

/-- Helper: `addToProject` never writes the class members: the returned
`ProjectState` is the input one, on every path. -/
theorem addToProject_keeps_state (σ : Type) (ops : RemoteOps σ) (ps : ProjectState)
    (itemID : String) (isPullRequest : Bool) (s : σ) :
    (addToProject ops ps itemID isPullRequest s).2.1 = ps := by
  unfold addToProject finishStatus
  repeat' split
  all_goals (dsimp only; repeat' split)
  all_goals rfl

/-- Claim C7: when `ensureMembershipAndStatus` fails (indeed, on every
outcome), the Orchestrator's stored board identity (`projectID`) and field
index (`fields`) are exactly their pre-call values, so a later call on the
same instance needs no re-initialization. -/
theorem ensure_preserves_identity_and_fields (σ : Type) (ops : RemoteOps σ)
    (ps : ProjectState) (itemID : String) (isPullRequest : Bool) (s : σ) :
    ((addToProject ops ps itemID isPullRequest s).2.1).projectID = ps.projectID ∧
    ((addToProject ops ps itemID isPullRequest s).2.1).fields = ps.fields := by
  rw [addToProject_keeps_state]
  exact ⟨rfl, rfl⟩

/-- Claim C9: with `projectID` still unset (i.e. before `init` completed),
`ensureMembershipAndStatus` fails with `notInitialized` and returns the
remote state untouched for every remote whatsoever — in particular no
lookup, add or status mutation is issued. -/
theorem ensure_before_init_fails (σ : Type) (ops : RemoteOps σ) (ps : ProjectState)
    (itemID : String) (isPullRequest : Bool) (s : σ) (h : ps.projectID = none) :
    addToProject ops ps itemID isPullRequest s =
      (.error PrjError.notInitialized, ps, s) := by
  unfold addToProject
  rw [h]

/-- Witness for C9: the uninitialized fixture indeed fails with
`notInitialized` against the counting remote without bumping any counter. -/
theorem ensure_before_init_fails_witness :
    psUninit.projectID = none ∧
    addToProject (countOps mockOps) psUninit "ITEM" false (mock0, zeroCounters) =
      (.error PrjError.notInitialized, psUninit, (mock0, zeroCounters)) :=
  ⟨rfl, ensure_before_init_fails _ (countOps mockOps) psUninit "ITEM" false
    (mock0, zeroCounters) rfl⟩

/-- Helper: the field map built by the fold holds, at each name, the latest
entry of that name having a defined id (i.e. the first hit in the reversed
sequence), falling back to the initial map. -/
theorem initFields_eq_find (fs : List ProjectFieldEntry) (m : FieldMap) (n : String) :
    initFields fs m n =
      (fs.reverse.find? (fun e => e.id.isSome && e.name == n)).or (m n) := by
  induction fs generalizing m with
  | nil => simp [initFields]
  | cons e fs ih =>
    have h1 : initFields (e :: fs) m = initFields fs (stepField m e) := rfl
    rw [h1, ih, List.reverse_cons, List.find?_append, Option.or_assoc]
    congr 1
    cases he : e.id with
    | none => simp [stepField, he, List.find?]
    | some i =>
      by_cases hn : n = e.name
      · subst hn
        simp [stepField, he, List.find?]
      · have : (e.name == n) = false := by
          simp [BEq.beq]
          exact fun h => (hn h.symm).elim
        simp [stepField, he, hn, List.find?, this]

/-- Claim C6: the Field Index is a left fold over the entry sequence — at
every name the index holds the latest entry of that name whose id is
defined, its keys are exactly the distinct names among entries with a
defined id, entries without id are skipped, and an empty input yields the
empty index (construction is total, so it cannot fail). -/
theorem fieldIndex_fold_spec (fs : List ProjectFieldEntry) :
    (∀ n : String, initFields fs emptyFields n =
        fs.reverse.find? (fun e => e.id.isSome && e.name == n)) ∧
    (∀ n : String, (initFields fs emptyFields n).isSome ↔
        ∃ e ∈ fs, e.id ≠ none ∧ e.name = n) ∧
    (∀ n : String, initFields [] emptyFields n = none) := by
  have base : ∀ n : String, initFields fs emptyFields n =
      fs.reverse.find? (fun e => e.id.isSome && e.name == n) := by
    intro n
    rw [initFields_eq_find]
    simp [emptyFields]
  refine ⟨base, ?_, fun _ => rfl⟩
  intro n
  rw [base n]
  constructor
  · intro h
    rcases Option.isSome_iff_exists.mp h with ⟨e, he⟩
    have hmem := List.mem_of_find?_eq_some he
    have hp := List.find?_some he
    simp only [Bool.and_eq_true, Option.isSome_iff_ne_none, beq_iff_eq] at hp
    exact ⟨e, List.mem_reverse.mp hmem, hp.1, hp.2⟩
  · intro ⟨e, hmem, hid, hname⟩
    rcases h : fs.reverse.find? (fun e => e.id.isSome && e.name == n) with _ | v
    · rw [List.find?_eq_none] at h
      exact absurd (by simp [Option.isSome_iff_ne_none, hid, hname])
        (h e (List.mem_reverse.mpr hmem))
    · rw [h]
      rfl

/-- Helper: the executable leading-segment test agrees with `List.IsPrefix`. -/
theorem leadsList_iff (a b : List Char) : leadsList a b = true ↔ a <+: b := by
  induction a generalizing b with
  | nil => simp [leadsList, List.nil_prefix]
  | cons x xs ih =>
    cases b with
    | nil => simp [leadsList]
    | cons y ys => simp [leadsList, ih, List.cons_prefix_cons, and_comm]

/-- Helper: the executable substring test agrees with `List.IsInfix`. -/
theorem infixList_iff (a b : List Char) : infixList a b = true ↔ a <:+: b := by
  induction b with
  | nil => simp [infixList, List.isEmpty_iff, List.infix_nil]
  | cons y ys ih =>
    simp [infixList, leadsList_iff, ih, List.infix_cons_iff, Bool.or_eq_true]

/-- Helper: the empty needle is a substring of everything. -/
theorem infixList_nil_left (l : List Char) : infixList [] l = true := by
  cases l <;> simp [infixList, leadsList]

/-- Claim C10: with the Status field present and a nonempty options list,
the empty desired label resolves to the first option in declared order
(every name contains the empty string), not to not-found. -/
theorem statusResolver_empty_label (fields : FieldMap) (entry : ProjectFieldEntry)
    (o : OptionEntry) (rest : List OptionEntry)
    (hS : fields "Status" = some entry) (hO : entry.options = o :: rest) :
    getStatusField fields "" =
      .ok (some { fieldID := entry.id, valueID := o.id, valueName := o.name }) := by
  have hp : optMatches "" o = true := by
    show infixList (lowerStr "").data (lowerStr o.name).data = true
    exact infixList_nil_left _
  unfold getStatusField
  rw [hS]
  dsimp only
  rw [hO, List.find?_cons_of_pos _ hp]

/-- Witness for C10: on the fixture board the empty label resolves to the
first option `Todo`. -/
theorem statusResolver_empty_label_witness :
    exFields "Status" = some exEntry ∧
    exEntry.options = ⟨"o1", "Todo"⟩ :: [⟨"o2", "In Progress"⟩, ⟨"o3", "✅ Done"⟩] ∧
    getStatusField exFields "" =
      .ok (some { fieldID := exEntry.id, valueID := "o1", valueName := "Todo" }) :=
  ⟨rfl, rfl, statusResolver_empty_label exFields exEntry ⟨"o1", "Todo"⟩
    [⟨"o2", "In Progress"⟩, ⟨"o3", "✅ Done"⟩] rfl rfl⟩

/-- Claim C4: whenever the index holds a field named Status, the resolver
returns the first option, in declared order, whose name contains the desired
label as a case-insensitive substring (`SpecStatusResolution`), reports
not-found exactly when no option name contains it, and in that case the
ensure operation fails with `statusValueNotFound` carrying the requested
label. -/
theorem statusResolver_first_match (fields : FieldMap) (entry : ProjectFieldEntry)
    (wanted : String) (hS : fields "Status" = some entry) :
    (∀ r, getStatusField fields wanted = .ok r → SpecStatusResolution entry wanted r) ∧
    (getStatusField fields wanted = .ok none ↔
        ∀ o ∈ entry.options, optMatches wanted o = false) ∧
    (∀ (σ : Type) (ops : RemoteOps σ) (ps : ProjectState) (pid : String)
        (itemID : String) (isPullRequest : Bool) (item : BoardItem) (s s1 : σ),
        ps.projectID = some pid → ps.fields = fields →
        (if isPullRequest then ps.defaultStatus.prs else ps.defaultStatus.issues) = wanted →
        ops.getProjectItem s itemID pid = (some item, s1) →
        getStatusField fields wanted = .ok none →
        addToProject ops ps itemID isPullRequest s =
          (.error (PrjError.statusValueNotFound wanted), ps, s1)) := by
  have hMatches : ∀ o : OptionEntry, optMatches wanted o = true ↔
      (lowerStr wanted).data <:+: (lowerStr o.name).data := by
    intro o
    exact infixList_iff _ _
  have hGSF : getStatusField fields wanted =
      match entry.options.find? (optMatches wanted) with
      | none => .ok none
      | some fv => .ok (some { fieldID := entry.id, valueID := fv.id,
                               valueName := fv.name }) := by
    unfold getStatusField
    rw [hS]
  refine ⟨?_, ?_, ?_⟩
  · intro r hr
    constructor
    · intro v hv
      subst hv
      rcases hfind : entry.options.find? (optMatches wanted) with _ | fv
      · rw [hGSF, hfind] at hr
        exact absurd hr (by simp)
      · rw [hGSF, hfind] at hr
        have hv : ({ fieldID := entry.id, valueID := fv.id,
                     valueName := fv.name } : StatusValue) = v := by
          injection hr with h
          injection h
        rcases List.find?_eq_some_iff_getElem.mp hfind with ⟨hp, i, hi, hie, hjlt⟩
        refine ⟨by rw [← hv], ⟨i, hi⟩, ?_⟩
        rw [← hv]
        refine ⟨by simp [List.get_eq_getElem, hie], by simp [List.get_eq_getElem, hie],
          ?_, ?_⟩
        · rw [List.get_eq_getElem]
          simp only [hie]
          exact (hMatches fv).mp hp
        · intro j hj hcon
          have := hjlt j.1 hj
          rw [Bool.not_eq_eq_eq_not, Bool.not_true] at this
          have h2 : optMatches wanted (entry.options.get j) = true :=
            (hMatches _).mpr hcon
          rw [List.get_eq_getElem] at h2
          rw [this] at h2
          exact Bool.false_ne_true h2
    · intro hnone o hmem hcon
      subst hnone
      rcases hfind : entry.options.find? (optMatches wanted) with _ | fv
      · rw [List.find?_eq_none] at hfind
        exact hfind o hmem ((hMatches o).mpr hcon)
      · rw [hGSF, hfind] at hr
        exact absurd hr (by simp)
  · rcases hfind : entry.options.find? (optMatches wanted) with _ | fv
    · rw [hGSF, hfind]
      dsimp only
      rw [List.find?_eq_none] at hfind
      simp only [true_iff]
      intro o hmem
      have := hfind o hmem
      simpa using this
    · rw [hGSF, hfind]
      dsimp only
      have hp := List.find?_some hfind
      have hmem := List.mem_of_find?_eq_some hfind
      constructor
      · intro hcon
        exact absurd hcon (by simp)
      · intro hall
        rw [hall fv hmem] at hp
        exact absurd hp (by simp)
  · intro σ ops ps pid itemID isPullRequest item s s1 hP hF hW hGet hNone
    unfold addToProject
    rw [hP]
    dsimp only
    rw [hGet]
    dsimp only
    unfold finishStatus
    dsimp only
    rw [hW, hF, hNone]

/-- Witness for C4: the fixture board with desired label `done` — the
characterization applies there (and indeed `done` resolves to the decorated
`✅ Done` option while no option is an exact match). -/
theorem statusResolver_first_match_witness :
    exFields "Status" = some exEntry ∧
    ((∀ r, getStatusField exFields "done" = .ok r →
        SpecStatusResolution exEntry "done" r) ∧
     (getStatusField exFields "done" = .ok none ↔
        ∀ o ∈ exEntry.options, optMatches "done" o = false) ∧
     (∀ (σ : Type) (ops : RemoteOps σ) (ps : ProjectState) (pid : String)
        (itemID : String) (isPullRequest : Bool) (item : BoardItem) (s s1 : σ),
        ps.projectID = some pid → ps.fields = exFields →
        (if isPullRequest then ps.defaultStatus.prs else ps.defaultStatus.issues) = "done" →
        ops.getProjectItem s itemID pid = (some item, s1) →
        getStatusField exFields "done" = .ok none →
        addToProject ops ps itemID isPullRequest s =
          (.error (PrjError.statusValueNotFound "done"), ps, s1))) :=
  ⟨rfl, statusResolver_first_match exFields exEntry "done" rfl⟩

/-- Claim C2: on the absent-membership path, when the add mutation returns
id `A` but the membership re-lookup returns an item whose id differs from
`A`, the operation fails with `membershipIDMismatch` and no set-field-value
mutation is performed (the update counter is untouched). -/
theorem ensure_mismatch_aborts (σ : Type) (ops : RemoteOps σ) (ps : ProjectState)
    (pid itemID : String) (isPullRequest : Bool) (s s1 s2 s3 : σ) (c : Counters)
    (A : String) (item : BoardItem)
    (hP : ps.projectID = some pid)
    (h1 : ops.getProjectItem s itemID pid = (none, s1))
    (h2 : ops.addProjectItem s1 itemID pid = (.ok (some A), s2))
    (h3 : ops.getProjectItem s2 itemID pid = (some item, s3))
    (h4 : item.prjItemID ≠ A) :
    addToProject (countOps ops) ps itemID isPullRequest (s, c) =
      (.error PrjError.membershipIDMismatch, ps,
       (s3, { gets := c.gets + 1 + 1, adds := c.adds + 1, updates := c.updates })) := by
  simp only [addToProject, countOps, hP, h1, h2, h3]
  rw [if_pos h4]

/-- Witness for C2: a remote answering `A` from the add and `B` from the
re-lookup drives the fixture into `membershipIDMismatch` with zero updates
issued. -/
theorem ensure_mismatch_aborts_witness :
    psReady.projectID = some "PID" ∧
    mismatchOps.getProjectItem 0 "ITEM" "PID" = (none, 1) ∧
    mismatchOps.addProjectItem 1 "ITEM" "PID" = (.ok (some "A"), 2) ∧
    mismatchOps.getProjectItem 2 "ITEM" "PID" = (some ⟨"B"⟩, 3) ∧
    ("B" : String) ≠ "A" ∧
    addToProject (countOps mismatchOps) psReady "ITEM" false (0, zeroCounters) =
      (.error PrjError.membershipIDMismatch, psReady,
       (3, { gets := 2, adds := 1, updates := 0 })) :=
  ⟨rfl, rfl, rfl, rfl, by decide,
    ensure_mismatch_aborts Nat mismatchOps psReady "PID" "ITEM" false 0 1 2 3
      zeroCounters "A" ⟨"B"⟩ rfl rfl rfl rfl (by decide)⟩

/-- Helper: with no field named Status in the map, the resolver throws
`missingStatusField` whatever the desired label. -/
theorem getStatusField_of_no_status (fields : FieldMap)
    (hS : fields "Status" = none) :
    ∀ w : String, getStatusField fields w = .error PrjError.missingStatusField := by
  intro w
  unfold getStatusField
  rw [hS]

/-- Counterexample to C1 as stated: on a board with no Status field and an
item that is not yet a member, the run does fail with `missingStatusField`,
but only after the add-to-board mutation was attempted (`adds = 1`), so the
failure does not precede every mutation. -/
theorem missingStatus_add_attempted_cex :
    (addToProject (countOps mockOps) psNoStatus "ITEM" false (mock0, zeroCounters)).1 =
      .error PrjError.missingStatusField ∧
    (addToProject (countOps mockOps) psNoStatus "ITEM" false
      (mock0, zeroCounters)).2.2.2.adds = 1 := ⟨rfl, rfl⟩

/-- Claim C1 as amended: with no field named Status, the ensure operation
never issues a set-field-value mutation and never succeeds, for every item
and both item kinds; when the item is already a board member it fails with
`missingStatusField` with no mutation attempted at all; when the item is
absent, the add mutation (and its consistency re-lookup) runs first and a
consistent add path then fails with `missingStatusField`. -/
theorem ensure_missingStatus_spec (σ : Type) (ops : RemoteOps σ) (ps : ProjectState)
    (pid itemID : String) (isPullRequest : Bool) (s : σ) (c : Counters)
    (hP : ps.projectID = some pid) (hS : ps.fields "Status" = none) :
    ((addToProject (countOps ops) ps itemID isPullRequest (s, c)).2.2.2.updates =
        c.updates) ∧
    (∀ bid, (addToProject (countOps ops) ps itemID isPullRequest (s, c)).1 ≠ .ok bid) ∧
    (∀ item s1, ops.getProjectItem s itemID pid = (some item, s1) →
        addToProject (countOps ops) ps itemID isPullRequest (s, c) =
          (.error PrjError.missingStatusField, ps,
           (s1, { gets := c.gets + 1, adds := c.adds, updates := c.updates }))) ∧
    (∀ s1 A s2 item s3, ops.getProjectItem s itemID pid = (none, s1) →
        ops.addProjectItem s1 itemID pid = (.ok (some A), s2) →
        ops.getProjectItem s2 itemID pid = (some item, s3) →
        item.prjItemID = A →
        addToProject (countOps ops) ps itemID isPullRequest (s, c) =
          (.error PrjError.missingStatusField, ps,
           (s3, { gets := c.gets + 1 + 1, adds := c.adds + 1, updates := c.updates }))) := by
  have hg := getStatusField_of_no_status ps.fields hS
  have hshape : ∃ (e : PrjError) (t : σ × Counters),
      addToProject (countOps ops) ps itemID isPullRequest (s, c) =
        (.error e, ps, t) ∧ t.2.updates = c.updates := by
    rcases h1 : ops.getProjectItem s itemID pid with ⟨r1, s1⟩
    cases r1 with
    | some item =>
      refine ⟨PrjError.missingStatusField,
        (s1, ⟨c.gets + 1, c.adds, c.updates⟩), ?_, rfl⟩
      simp only [addToProject, countOps, hP, h1, finishStatus]
      rw [hg]
    | none =>
      rcases h2 : ops.addProjectItem s1 itemID pid with ⟨r2, s2⟩
      cases r2 with
      | error u =>
        refine ⟨PrjError.addFailed,
          (s2, ⟨c.gets + 1, c.adds + 1, c.updates⟩), ?_, rfl⟩
        simp only [addToProject, countOps, hP, h1, h2]
      | ok o =>
        cases o with
        | none =>
          refine ⟨PrjError.addReturnedNoID,
            (s2, ⟨c.gets + 1, c.adds + 1, c.updates⟩), ?_, rfl⟩
          simp only [addToProject, countOps, hP, h1, h2]
        | some A =>
          rcases h3 : ops.getProjectItem s2 itemID pid with ⟨r3, s3⟩
          cases r3 with
          | none =>
            refine ⟨PrjError.membershipNotFoundAfterAdd,
              (s3, ⟨c.gets + 1 + 1, c.adds + 1, c.updates⟩), ?_, rfl⟩
            simp only [addToProject, countOps, hP, h1, h2, h3]
          | some item =>
            by_cases hid : item.prjItemID = A
            · refine ⟨PrjError.missingStatusField,
                (s3, ⟨c.gets + 1 + 1, c.adds + 1, c.updates⟩), ?_, rfl⟩
              simp only [addToProject, countOps, hP, h1, h2, h3, finishStatus]
              rw [if_neg (by simp [hid]), hg]
            · refine ⟨PrjError.membershipIDMismatch,
                (s3, ⟨c.gets + 1 + 1, c.adds + 1, c.updates⟩), ?_, rfl⟩
              simp only [addToProject, countOps, hP, h1, h2, h3]
              rw [if_pos hid]
  obtain ⟨e, t, hres, hupd⟩ := hshape
  refine ⟨?_, ?_, ?_, ?_⟩
  · rw [hres]
    exact hupd
  · intro bid
    rw [hres]
    simp
  · intro item s1 hGet
    simp only [addToProject, countOps, hP, hGet, finishStatus]
    rw [hg]
  · intro s1 A s2 item s3 hGet1 hAdd hGet2 hEq
    simp only [addToProject, countOps, hP, hGet1, hAdd, hGet2, finishStatus]
    rw [if_neg (by simp [hEq]), hg]

/-- Witness for the amended C1: the no-Status fixture board satisfies the
hypotheses and the four-part conclusion. -/
theorem ensure_missingStatus_spec_witness :
    psNoStatus.projectID = some "PID" ∧
    psNoStatus.fields "Status" = none ∧
    (((addToProject (countOps mockOps) psNoStatus "ITEM" false
        (mock0, zeroCounters)).2.2.2.updates = zeroCounters.updates) ∧
     (∀ bid, (addToProject (countOps mockOps) psNoStatus "ITEM" false
        (mock0, zeroCounters)).1 ≠ .ok bid) ∧
     (∀ item s1, mockOps.getProjectItem mock0 "ITEM" "PID" = (some item, s1) →
        addToProject (countOps mockOps) psNoStatus "ITEM" false (mock0, zeroCounters) =
          (.error PrjError.missingStatusField, psNoStatus,
           (s1, { gets := zeroCounters.gets + 1, adds := zeroCounters.adds,
                  updates := zeroCounters.updates }))) ∧
     (∀ s1 A s2 item s3, mockOps.getProjectItem mock0 "ITEM" "PID" = (none, s1) →
        mockOps.addProjectItem s1 "ITEM" "PID" = (.ok (some A), s2) →
        mockOps.getProjectItem s2 "ITEM" "PID" = (some item, s3) →
        item.prjItemID = A →
        addToProject (countOps mockOps) psNoStatus "ITEM" false (mock0, zeroCounters) =
          (.error PrjError.missingStatusField, psNoStatus,
           (s3, { gets := zeroCounters.gets + 1 + 1, adds := zeroCounters.adds + 1,
                  updates := zeroCounters.updates })))) :=
  ⟨rfl, rfl, ensure_missingStatus_spec MockState mockOps psNoStatus "PID" "ITEM"
    false mock0 zeroCounters rfl rfl⟩

/-- Claim C3: against a contract-abiding remote, running the ensure
operation twice for an item that was absent, with no intervening external
change, returns the same board-item id both times and issues exactly one
add mutation across the two runs (the second run finds the membership and
skips the add). -/
theorem ensure_idempotent (ps : ProjectState) (pid itemID : String) (v : StatusValue)
    (s : MockState)
    (hP : ps.projectID = some pid)
    (hAbsent : lookupMem s.members (itemID, pid) = none)
    (hStatus : getStatusField ps.fields ps.defaultStatus.issues = .ok (some v)) :
    ∃ (bid : String) (s1 s2 : MockState),
      addToProject mockOps ps itemID false s = (.ok bid, ps, s1) ∧
      addToProject mockOps ps itemID false s1 = (.ok bid, ps, s2) ∧
      s1.adds = s.adds + 1 ∧ s2.adds = s.adds + 1 := by
  refine ⟨"PRJITEM" ++ toString s.nextID,
    ⟨((itemID, pid), "PRJITEM" ++ toString s.nextID) :: s.members,
      s.nextID + 1, s.adds + 1, s.updates + 1⟩,
    ⟨((itemID, pid), "PRJITEM" ++ toString s.nextID) :: s.members,
      s.nextID + 1, s.adds + 1, s.updates + 1 + 1⟩, ?_, ?_, rfl, rfl⟩
  · simp [addToProject, mockOps, finishStatus, lookupMem, hP, hAbsent, hStatus]
  · simp [addToProject, mockOps, finishStatus, lookupMem, hP, hStatus]

/-- Witness for C3: the ready fixture with an empty board — label `Todo`
resolves, the item is added once, and the second run returns the same id. -/
theorem ensure_idempotent_witness :
    psReady.projectID = some "PID" ∧
    lookupMem mock0.members ("ITEM", "PID") = none ∧
    getStatusField psReady.fields psReady.defaultStatus.issues =
      .ok (some ⟨some "F1", "o1", "Todo"⟩) ∧
    (∃ (bid : String) (s1 s2 : MockState),
      addToProject mockOps psReady "ITEM" false mock0 = (.ok bid, psReady, s1) ∧
      addToProject mockOps psReady "ITEM" false s1 = (.ok bid, psReady, s2) ∧
      s1.adds = mock0.adds + 1 ∧ s2.adds = mock0.adds + 1) :=
  ⟨rfl, rfl, rfl, ensure_idempotent psReady "PID" "ITEM"
    ⟨some "F1", "o1", "Todo"⟩ mock0 rfl rfl rfl⟩

/-- Counterexample to C8 as stated: the URL is resolved by the constructor,
not by `init` — constructing a `Project` from a non-matching URL already
fails with `invalidURL`, so `initialize()` is not the operation that
resolves the board URL. -/
theorem init_invalidURL_at_construction_cex :
    mkProject "token" "no-board-url" ds0 =
      .error (PrjError.invalidURL "no-board-url") := rfl

/-- Claim C8 as amended: the board URL is resolved at construction, which
propagates the resolver's `invalidURL` failure unchanged; `init` itself,
given a remote response, either succeeds or fails with `boardNotFound` —
its failure set does not contain `invalidURL`. -/
theorem construction_resolves_url (tok url : String) (ds : DefaultStatus) (e : PrjError)
    (h : parseURL url = .error e) :
    mkProject tok url ds = .error e ∧
    ∀ (fetch : ProjectDesc → ProjectQueryResponse) (ps : ProjectState),
      init fetch ps = .error PrjError.boardNotFound ∨
      ∃ (r : InitResult) (ps2 : ProjectState), init fetch ps = .ok (r, ps2) := by
  constructor
  · unfold mkProject
    rw [h]
  · intro fetch ps
    unfold init
    dsimp only
    cases hb : (if ps.desc.isOrg then (fetch ps.desc).organization
                else (fetch ps.desc).user) with
    | none =>
      left
      rfl
    | some holder =>
      right
      exact ⟨_, _, rfl⟩

/-- Witness for the amended C8: a concrete non-matching URL fails in the
constructor with `invalidURL`, and `init`'s failure set is as stated. -/
theorem construction_resolves_url_witness :
    parseURL "no-url-here" = .error (PrjError.invalidURL "no-url-here") ∧
    (mkProject "tok" "no-url-here" ds0 = .error (PrjError.invalidURL "no-url-here") ∧
     ∀ (fetch : ProjectDesc → ProjectQueryResponse) (ps : ProjectState),
       init fetch ps = .error PrjError.boardNotFound ∨
       ∃ (r : InitResult) (ps2 : ProjectState), init fetch ps = .ok (r, ps2)) :=
  ⟨rfl, construction_resolves_url "tok" "no-url-here" ds0 _ rfl⟩

/-- Helper: a successful literal strip means the literal was a leading
segment. -/
theorem stripLit_sound (pat : List Char) : ∀ (l r : List Char),
    stripLit pat l = some r → l = pat ++ r := by
  induction pat with
  | nil =>
    intro l r h
    simp [stripLit] at h
    simp [h]
  | cons a as ih =>
    intro l r h
    cases l with
    | nil => simp [stripLit] at h
    | cons b bs =>
      simp only [stripLit] at h
      by_cases hab : a = b
      · rw [if_pos hab] at h
        have := ih bs r h
        subst hab
        simp [this]
      · rw [if_neg hab] at h
        cases h

/-- Helper: stripping a literal off itself succeeds. -/
theorem stripLit_complete (pat r : List Char) : stripLit pat (pat ++ r) = some r := by
  induction pat with
  | nil => rfl
  | cons a as ih => simp [stripLit, ih]

/-- Helper: the greedy slash-free run of `own ++ '/' :: T` is exactly `own`
and the remainder starts at the slash. -/
theorem takeWhile_slash (own : List Char) (T : List Char) (h : ∀ c ∈ own, c ≠ '/') :
    (own ++ '/' :: T).takeWhile (fun c => c ≠ '/') = own ∧
    (own ++ '/' :: T).dropWhile (fun c => c ≠ '/') = '/' :: T := by
  induction own with
  | nil => simp [List.takeWhile_cons, List.dropWhile_cons]
  | cons x xs ih =>
    have hx : x ≠ '/' := h x (by simp)
    have hrest : ∀ c ∈ xs, c ≠ '/' := fun c hc => h c (by simp [hc])
    obtain ⟨h1, h2⟩ := ih hrest
    have hxb : (decide (x ≠ '/')) = true := by simp [hx]
    simp only [List.cons_append, List.takeWhile_cons, List.dropWhile_cons, hxb, if_true]
    exact ⟨by rw [h1], by rw [h2]⟩

/-- Helper: a successful `matchTail` yields exactly the decomposition
`owner / projects / digits` with a nonempty slash-free owner and a nonempty
digit run. -/
theorem matchTail_sound (seg rest : List Char) (m : RawMatch)
    (h : matchTail seg rest = some m) :
    m.seg = seg ∧ m.owner ≠ [] ∧ (∀ c ∈ m.owner, c ≠ '/') ∧
    m.digits ≠ [] ∧ (∀ c ∈ m.digits, c.isDigit = true) ∧
    ∃ post, rest = m.owner ++ ("/projects/".toList ++ (m.digits ++ post)) := by
  unfold matchTail at h
  try dsimp only at h
  split at h
  · cases h
  · rename_i hemp
    split at h
    · cases h
    · rename_i rest3 hstrip
      try dsimp only at h
      split at h
      · cases h
      · rename_i hdemp
        injection h with h
        subst h
        dsimp only
        refine ⟨rfl, ?_, ?_, ?_, ?_, ?_⟩
        · exact List.isEmpty_eq_false.mp (Bool.not_eq_true _ ▸ hemp)
        · intro c hc
          have hb := @List.mem_takeWhile_imp Char (fun c => decide (c ≠ '/')) rest c hc
          exact of_decide_eq_true hb
        · exact List.isEmpty_eq_false.mp (Bool.not_eq_true _ ▸ hdemp)
        · intro c hc
          exact List.mem_takeWhile_imp hc
        · refine ⟨rest3.dropWhile Char.isDigit, ?_⟩
          have e1 : rest.takeWhile (fun c => c ≠ '/') ++
              rest.dropWhile (fun c => c ≠ '/') = rest :=
            List.takeWhile_append_dropWhile _ _
          have e2 := stripLit_sound _ _ _ hstrip
          have e3 : rest3.takeWhile Char.isDigit ++ rest3.dropWhile Char.isDigit =
              rest3 := List.takeWhile_append_dropWhile _ _
          calc rest = rest.takeWhile (fun c => c ≠ '/') ++
                rest.dropWhile (fun c => c ≠ '/') := e1.symm
            _ = rest.takeWhile (fun c => c ≠ '/') ++
                ("/projects/".toList ++ rest3) := by rw [e2]
            _ = rest.takeWhile (fun c => c ≠ '/') ++
                ("/projects/".toList ++ (rest3.takeWhile Char.isDigit ++
                  rest3.dropWhile Char.isDigit)) := by rw [e3]

/-- Helper: a successful anchored match decomposes the input as
`/(orgs|users)/owner/projects/digits …`. -/
theorem matchAt_sound (l : List Char) (m : RawMatch) (h : matchAt l = some m) :
    (m.seg = "orgs".toList ∨ m.seg = "users".toList) ∧
    m.owner ≠ [] ∧ (∀ c ∈ m.owner, c ≠ '/') ∧
    m.digits ≠ [] ∧ (∀ c ∈ m.digits, c.isDigit = true) ∧
    ∃ post, l = '/' :: (m.seg ++ '/' ::
      (m.owner ++ ("/projects/".toList ++ (m.digits ++ post)))) := by
  unfold matchAt at h
  split at h
  · rename_i rest horgs
    obtain ⟨hseg, hown, hownP, hds, hdsP, post, hrest⟩ := matchTail_sound _ _ _ h
    have hl := stripLit_sound _ _ _ horgs
    refine ⟨Or.inl hseg, hown, hownP, hds, hdsP, post, ?_⟩
    rw [hl, hrest, hseg]
    rfl
  · split at h
    · rename_i rest husers
      obtain ⟨hseg, hown, hownP, hds, hdsP, post, hrest⟩ := matchTail_sound _ _ _ h
      have hl := stripLit_sound _ _ _ husers
      refine ⟨Or.inr hseg, hown, hownP, hds, hdsP, post, ?_⟩
      rw [hl, hrest, hseg]
      rfl
    · cases h

/-- Helper: a well-formed tail makes `matchTail` succeed. -/
theorem matchTail_complete (sg own ds post : List Char)
    (hown : own ≠ []) (hownP : ∀ c ∈ own, c ≠ '/')
    (hds : ds ≠ []) (hdsP : ∀ c ∈ ds, c.isDigit = true) :
    (matchTail sg (own ++ ("/projects/".toList ++ (ds ++ post)))).isSome := by
  obtain ⟨hTW, hDW⟩ := takeWhile_slash own ("projects/".toList ++ (ds ++ post)) hownP
  have hsplit : own ++ ("/projects/".toList ++ (ds ++ post)) =
      own ++ '/' :: ("projects/".toList ++ (ds ++ post)) := rfl
  have hsc : stripLit "/projects/".toList
      ('/' :: ("projects/".toList ++ (ds ++ post))) = some (ds ++ post) :=
    stripLit_complete "/projects/".toList (ds ++ post)
  obtain ⟨d, t, rfl⟩ := List.exists_cons_of_ne_nil hds
  have hd : d.isDigit = true := hdsP d (by simp)
  unfold matchTail
  dsimp only
  rw [hsplit, hTW, hDW, List.isEmpty_eq_false.mpr hown, if_neg Bool.false_ne_true, hsc]
  dsimp only
  have harr : (d :: t) ++ post = d :: (t ++ post) := rfl
  rw [harr]
  simp [List.takeWhile_cons, hd]

/-- Helper: a well-formed decomposition anchored at the head makes `matchAt`
succeed (trying `orgs` first cannot shadow a `users` input: the first owner
letters differ). -/
theorem matchAt_complete (seg own ds post : List Char)
    (hseg : seg = "orgs".toList ∨ seg = "users".toList)
    (hown : own ≠ []) (hownP : ∀ c ∈ own, c ≠ '/')
    (hds : ds ≠ []) (hdsP : ∀ c ∈ ds, c.isDigit = true) :
    (matchAt ('/' :: (seg ++ '/' ::
      (own ++ ("/projects/".toList ++ (ds ++ post)))))).isSome := by
  rcases hseg with hseg | hseg <;> subst hseg
  · have horgs : stripLit "/orgs/".toList ('/' :: ("orgs".toList ++ '/' ::
        (own ++ ("/projects/".toList ++ (ds ++ post))))) =
        some (own ++ ("/projects/".toList ++ (ds ++ post))) :=
      stripLit_complete "/orgs/".toList _
    unfold matchAt
    rw [horgs]
    exact matchTail_complete _ own ds post hown hownP hds hdsP
  · have horgs : stripLit "/orgs/".toList ('/' :: ("users".toList ++ '/' ::
        (own ++ ("/projects/".toList ++ (ds ++ post))))) = none := rfl
    have husers : stripLit "/users/".toList ('/' :: ("users".toList ++ '/' ::
        (own ++ ("/projects/".toList ++ (ds ++ post))))) =
        some (own ++ ("/projects/".toList ++ (ds ++ post))) :=
      stripLit_complete "/users/".toList _
    unfold matchAt
    rw [horgs, husers]
    exact matchTail_complete _ own ds post hown hownP hds hdsP

/-- Helper: when the scan finds a match, the input contains the declarative
pattern and the matched segment is one of the two keywords. -/
theorem findMatch_sound : ∀ (l : List Char) (m : RawMatch), findMatch l = some m →
    (m.seg = "orgs".toList ∨ m.seg = "users".toList) ∧ HasPattern l := by
  intro l
  induction l with
  | nil => intro m h; cases h
  | cons c cs ih =>
    intro m h
    unfold findMatch at h
    split at h
    · rename_i m' hAt
      injection h with h
      subst h
      obtain ⟨hseg, hown, hownP, hds, hdsP, post, hl⟩ := matchAt_sound _ _ hAt
      refine ⟨hseg, [], m'.seg, m'.owner, m'.digits, post, ?_, hseg, hown, hownP,
        hds, hdsP⟩
      simpa using hl
    · rename_i hAt
      obtain ⟨hseg, pre, sg, ow, d, po, heq, hsg, how, howP, hd, hdP⟩ := ih m h
      exact ⟨hseg, c :: pre, sg, ow, d, po, by rw [List.cons_append, ← heq],
        hsg, how, howP, hd, hdP⟩

/-- Helper: when the input contains the declarative pattern, the scan finds
a match. -/
theorem findMatch_complete : ∀ (l : List Char), HasPattern l → (findMatch l).isSome := by
  intro l hp
  obtain ⟨pre, seg, own, ds, post, heq, hseg, hown, hownP, hds, hdsP⟩ := hp
  induction pre generalizing l with
  | nil =>
    simp only [List.nil_append] at heq
    subst heq
    have hAtS := matchAt_complete seg own ds post hseg hown hownP hds hdsP
    unfold findMatch
    cases hAt : matchAt ('/' :: (seg ++ '/' ::
        (own ++ ("/projects/".toList ++ (ds ++ post))))) with
    | none =>
      rw [hAt] at hAtS
      cases hAtS
    | some m => rfl
  | cons c pre ih =>
    rw [List.cons_append] at heq
    subst heq
    unfold findMatch
    cases hAt : matchAt (c :: (pre ++ '/' :: (seg ++ '/' ::
        (own ++ ("/projects/".toList ++ (ds ++ post)))))) with
    | none => exact ih _ rfl
    | some m => rfl

/-- Claim C5: `parseURL` fails with `invalidURL` exactly on the strings in
which the pattern `/(orgs|users)/<owner>/projects/<digits>` occurs nowhere;
on a successful parse the descriptor is built from the leftmost match's
groups, with `isOrg` true iff the matched segment is `orgs` (and false iff
it is `users`). -/
theorem parseURL_pattern_spec (url : String) :
    (parseURL url = .error (PrjError.invalidURL url) ↔ ¬ HasPattern url.toList) ∧
    (∀ d : ProjectDesc, parseURL url = .ok d →
       ∃ m : RawMatch, findMatch url.toList = some m ∧
         (m.seg = "orgs".toList ∨ m.seg = "users".toList) ∧
         d.owner = String.mk m.owner ∧
         d.projectNumber = digitsToNat m.digits ∧
         (d.isOrg = true ↔ m.seg = "orgs".toList) ∧
         (d.isOrg = false ↔ m.seg = "users".toList)) ∧
    (HasPattern url.toList → ∃ d : ProjectDesc, parseURL url = .ok d) := by
  refine ⟨⟨?_, ?_⟩, ?_, ?_⟩
  · intro herr hp
    have hfc := findMatch_complete url.toList hp
    unfold parseURL at herr
    cases hfm : findMatch url.toList with
    | none =>
      rw [hfm] at hfc
      cases hfc
    | some m =>
      rw [hfm] at herr
      exact absurd herr (by simp)
  · intro hnp
    unfold parseURL
    cases hfm : findMatch url.toList with
    | none => rfl
    | some m =>
      exact absurd (findMatch_sound url.toList m hfm).2 hnp
  · intro d hd
    unfold parseURL at hd
    cases hfm : findMatch url.toList with
    | none =>
      rw [hfm] at hd
      exact absurd hd (by simp)
    | some m =>
      rw [hfm] at hd
      dsimp only at hd
      have hd2 : d = ⟨String.mk m.owner, digitsToNat m.digits,
          m.seg == "orgs".toList⟩ := by
        injection hd with h
        exact h.symm
      obtain ⟨hseg, _⟩ := findMatch_sound url.toList m hfm
      subst hd2
      refine ⟨m, rfl, hseg, rfl, rfl, ?_, ?_⟩
      · exact beq_iff_eq
      · rcases hseg with h | h
        · rw [h]
          dsimp only
          decide
        · rw [h]
          dsimp only
          decide
  · intro hp
    have hfc := findMatch_complete url.toList hp
    cases hfm : findMatch url.toList with
    | none =>
      rw [hfm] at hfc
      cases hfc
    | some m =>
      refine ⟨⟨String.mk m.owner, digitsToNat m.digits, m.seg == "orgs".toList⟩, ?_⟩
      unfold parseURL
      rw [hfm]

/-- Witness for C5: the characterization at a concrete organization URL,
which indeed parses to owner `acme`, project number 7, `isOrg` true. -/
theorem parseURL_pattern_spec_witness :
    ((parseURL "https://github.com/orgs/acme/projects/7" =
        .error (PrjError.invalidURL "https://github.com/orgs/acme/projects/7") ↔
      ¬ HasPattern "https://github.com/orgs/acme/projects/7".toList) ∧
     (∀ d : ProjectDesc,
        parseURL "https://github.com/orgs/acme/projects/7" = .ok d →
        ∃ m : RawMatch,
          findMatch "https://github.com/orgs/acme/projects/7".toList = some m ∧
          (m.seg = "orgs".toList ∨ m.seg = "users".toList) ∧
          d.owner = String.mk m.owner ∧
          d.projectNumber = digitsToNat m.digits ∧
          (d.isOrg = true ↔ m.seg = "orgs".toList) ∧
          (d.isOrg = false ↔ m.seg = "users".toList)) ∧
     (HasPattern "https://github.com/orgs/acme/projects/7".toList →
        ∃ d : ProjectDesc,
          parseURL "https://github.com/orgs/acme/projects/7" = .ok d)) ∧
    parseURL "https://github.com/orgs/acme/projects/7" = .ok ⟨"acme", 7, true⟩ :=
  ⟨parseURL_pattern_spec "https://github.com/orgs/acme/projects/7", rfl⟩

end ProjectStatus
